import Mathlib

/- Shallow embedding of the tic-tac-toe contract (src/game.rs, src/state.rs,
   src/contract.rs): game engine, session manager and query projections, with
   theorems checking the natural-language specification against them. -/

namespace TicTacToe

/-- Players (src/game.rs `Player`): X, O, or None for an empty cell. -/
inductive Player where
  | X
  | O
  | None
deriving DecidableEq

/-- Errors of the game engine (src/game.rs `GameError`). -/
inductive GameError where
  | NotYourTurn
  | InvalidMove (index : Nat)
deriving DecidableEq

/-- The eight winning triples (src/game.rs `WINNING_COMBINATIONS`): three rows,
three columns, two diagonals, in that order. -/
def WINNING_COMBINATIONS : List (List Nat) :=
  [[0, 1, 2], [3, 4, 5], [6, 7, 8], [0, 3, 6], [1, 4, 7], [2, 5, 8], [0, 4, 8], [2, 4, 6]]

/-- A game round (src/game.rs `Game`): a board of 9 cells and the player whose turn it is. -/
structure Game where
  board : List Player
  turn : Player
deriving DecidableEq

/-- New game (src/game.rs `Game::new`): empty board, X plays first. -/
def Game.new : Game :=
  { board := List.replicate 9 Player.None, turn := Player.X }

/-- The turn toggle inside src/game.rs `Game::play`:
`match player { X => O, O => X, None => None }`. -/
def switch : Player → Player
  | Player.X => Player.O
  | Player.O => Player.X
  | Player.None => Player.None

/-- Board cell at an index (out-of-range reads give `None`; the engine only
reads in range). -/
def cellAt (g : Game) (i : Nat) : Player :=
  (g.board[i]?).getD Player.None

/-- Move application (src/game.rs `Game::play`): reject an out-of-turn player,
then reject an out-of-range or occupied cell, otherwise set the cell and flip
the turn. -/
def Game.play (g : Game) (player : Player) (index : Nat) : Except GameError Game :=
  if g.turn ≠ player then
    Except.error GameError.NotYourTurn
  else
    match g.board[index]? with
    | some cell =>
        if cell = Player.None then
          Except.ok { board := g.board.set index player, turn := switch player }
        else
          Except.error (GameError.InvalidMove index)
    | none => Except.error (GameError.InvalidMove index)

/-- Scan over the winning combinations (loop of src/game.rs `Game::winner`). -/
def winnerAux (g : Game) : List (List Nat) → Option Player
  | [] => none
  | c :: rest =>
      let player := cellAt g (c.headD 0)
      if player ≠ Player.None ∧ ∀ i ∈ c, cellAt g i = player then
        some player
      else
        winnerAux g rest

/-- Winner of the game (src/game.rs `Game::winner`). -/
def Game.winner (g : Game) : Option Player :=
  winnerAux g WINNING_COMBINATIONS

/-- Game-over test (src/game.rs `Game::is_over`): a winner exists or the board
is full. -/
def Game.is_over (g : Game) : Bool :=
  g.winner.isSome || g.board.all (fun p => p != Player.None)

/-- UTF-8 encoding of one character, as Rust `str::as_bytes` renders it. -/
def utf8EncodeChar (c : Char) : List Nat :=
  let n := c.toNat
  if n < 128 then [n]
  else if n < 2048 then [192 + n / 64, 128 + n % 64]
  else if n < 65536 then [224 + n / 4096, 128 + n / 64 % 64, 128 + n % 64]
  else [240 + n / 262144, 128 + n / 4096 % 64, 128 + n / 64 % 64, 128 + n % 64]

/-- UTF-8 bytes of a string. -/
def utf8Bytes (s : String) : List Nat :=
  (s.data.map utf8EncodeChar).flatten

/-- The 64-bit modulus. -/
def M64 : Nat := 2 ^ 64

/-- Left rotation of a 64-bit word. -/
def rotl (x b : Nat) : Nat :=
  ((x <<< b) % M64) ||| (x >>> (64 - b))

/-- One SipHash round on the four-word state. -/
def sipRound : Nat × Nat × Nat × Nat → Nat × Nat × Nat × Nat
  | (v0, v1, v2, v3) =>
    let v0 := (v0 + v1) % M64
    let v1 := rotl v1 13
    let v1 := v1 ^^^ v0
    let v0 := rotl v0 32
    let v2 := (v2 + v3) % M64
    let v3 := rotl v3 16
    let v3 := v3 ^^^ v2
    let v0 := (v0 + v3) % M64
    let v3 := rotl v3 21
    let v3 := v3 ^^^ v0
    let v2 := (v2 + v1) % M64
    let v1 := rotl v1 17
    let v1 := v1 ^^^ v2
    let v2 := rotl v2 32
    (v0, v1, v2, v3)

/-- Little-endian 64-bit word from a list of bytes. -/
def le64 (bytes : List Nat) : Nat :=
  bytes.foldr (fun b acc => acc * 256 + b) 0

/-- Split a byte stream into SipHash message words, eight bytes at a time; the
final (possibly empty) word carries the stream length in its top byte. -/
def sipBlocks (msgLen : Nat) : List Nat → List Nat
  | b0 :: b1 :: b2 :: b3 :: b4 :: b5 :: b6 :: b7 :: rest =>
      le64 [b0, b1, b2, b3, b4, b5, b6, b7] :: sipBlocks msgLen rest
  | rest => [le64 rest + msgLen % 256 * 2 ^ 56]

/-- SipHash-1-3 (one compression round, three finalization rounds) over a byte
stream; this is the algorithm of Rust's DefaultHasher. -/
def sipHash13 (k0 k1 : Nat) (data : List Nat) : Nat :=
  let v0 := k0 ^^^ 0x736f6d6570736575
  let v1 := k1 ^^^ 0x646f72616e646f6d
  let v2 := k0 ^^^ 0x6c7967656e657261
  let v3 := k1 ^^^ 0x7465646279746573
  let st := (sipBlocks data.length data).foldl
    (fun st m =>
      let (v0, v1, v2, v3) := st
      let (v0, v1, v2, v3) := sipRound (v0, v1, v2, v3 ^^^ m)
      (v0 ^^^ m, v1, v2, v3))
    (v0, v1, v2, v3)
  let (v0, v1, v2, v3) := st
  let (v0, v1, v2, v3) := sipRound (sipRound (sipRound (v0, v1, v2 ^^^ 255, v3)))
  v0 ^^^ v1 ^^^ v2 ^^^ v3

/-- Hash of a string exactly as Rust DefaultHasher hashes a `&str`: SipHash-1-3
with zero keys over the UTF-8 bytes followed by the byte 0xFF. -/
def defaultHash (s : String) : Nat :=
  sipHash13 0 0 (utf8Bytes s ++ [255])

/-- Fuelled worker producing the decimal digits of a number, most significant
first; any fuel above the number itself is enough. -/
def decDigitsGo (fuel : Nat) (n : Nat) : List Nat :=
  match fuel with
  | 0 => []
  | fuel + 1 => if n < 10 then [n] else decDigitsGo fuel (n / 10) ++ [n % 10]

/-- Decimal digits of a number, most significant first. -/
def decDigits (n : Nat) : List Nat :=
  decDigitsGo (n + 1) n

/-- ASCII bytes of the decimal rendering of a number
(Rust `to_string()` then `as_bytes()`). -/
def decBytes (n : Nat) : List Nat :=
  (decDigits n).map (fun d => 48 + d)

/-- Host role derivation (src/contract.rs `get_host_role`): hash the
concatenation of the two addresses with the default hasher, render the 64-bit
hash in decimal, take the low bit of its first ASCII byte; bit 0 gives O,
bit 1 gives X. -/
def get_host_role (host_addr guest_addr : String) : Player :=
  let concat := host_addr ++ guest_addr
  let hash := decBytes (defaultHash concat)
  let first_bit := hash.headD 0 &&& 1
  if first_bit = 0 then Player.O else Player.X

/-- The host-role derivation in the words of the claim being checked:
concatenate host then guest, hash, take the LOWEST BIT OF THE HASH, bit 0
giving First (X) and bit 1 giving Second (O). Stated only for comparison with
`get_host_role`. -/
def hostRoleClaimed (host_addr guest_addr : String) : Player :=
  if defaultHash (host_addr ++ guest_addr) % 2 = 0 then Player.X else Player.O

/-- The host-role derivation as the code actually behaves, in plain words:
render the 64-bit hash in decimal and take the parity of its leading decimal
digit; parity 0 gives Second (O), parity 1 gives First (X). -/
def hostRoleAmended (host_addr guest_addr : String) : Player :=
  if (decDigits (defaultHash (host_addr ++ guest_addr))).headD 0 % 2 = 0 then Player.O
  else Player.X

/-- A stored session record (src/state.rs `Games`). -/
structure Games where
  pending_invition : Bool
  host : Player
  current : Option Game
  completed : List Game
deriving DecidableEq

/-- Contract errors (src/error.rs `ContractError`); `StdNotFound` stands for the
`StdError::NotFound` a failing storage load raises. -/
inductive ContractError where
  | StdNotFound
  | GameError (e : GameError)
  | GameInProgress (host guest : String)
  | NoPendingInvitation (host guest : String)
  | NoGameInProgress (host guest : String)
  | NotInvolved (host guest player : String)
deriving DecidableEq

/-- The persisted `GAMES` map (src/state.rs), as an association list from the
ordered address pair to the session record. -/
abbrev Store : Type :=
  List ((String × String) × Games)

/-- Storage read of one key (cw `Map::load` modulo the error value). -/
def load : Store → (String × String) → Option Games
  | [], _ => none
  | e :: rest, k => if e.1 = k then some e.2 else load rest k

/-- Storage write of one key (cw `Map::save`): update in place, or insert. -/
def save : Store → (String × String) → Games → Store
  | [], k, v => [(k, v)]
  | e :: rest, k, v => if e.1 = k then (k, v) :: rest else e :: save rest k v

/-- Invitation handler (src/contract.rs `exec::invite`): the sender invites a
guest; fail if a round is running, reuse the record if one exists, otherwise
create one with a derived host role. -/
def exec.invite (store : Store) (sender guest_addr : String) : Except ContractError Store :=
  match load store (sender, guest_addr) with
  | some games =>
      if games.current.isSome then
        Except.error (ContractError.GameInProgress sender guest_addr)
      else
        Except.ok (save store (sender, guest_addr) { games with pending_invition := true })
  | none =>
      Except.ok (save store (sender, guest_addr)
        { pending_invition := true
          host := get_host_role sender guest_addr
          current := none
          completed := [] })

/-- Acceptance handler (src/contract.rs `exec::accept`): the sender accepts an
invitation from a host; a fresh round is created. -/
def exec.accept (store : Store) (sender host_addr : String) : Except ContractError Store :=
  match load store (host_addr, sender) with
  | none => Except.error ContractError.StdNotFound
  | some games =>
      if games.pending_invition then
        Except.ok (save store (host_addr, sender)
          { games with pending_invition := false, current := some Game.new })
      else
        Except.error (ContractError.NoPendingInvitation host_addr sender)

/-- Rejection handler (src/contract.rs `exec::reject`): the sender rejects an
invitation from a host; no round is created. -/
def exec.reject (store : Store) (sender host_addr : String) : Except ContractError Store :=
  match load store (host_addr, sender) with
  | none => Except.error ContractError.StdNotFound
  | some games =>
      if games.pending_invition then
        Except.ok (save store (host_addr, sender) { games with pending_invition := false })
      else
        Except.error (ContractError.NoPendingInvitation host_addr sender)

/-- Tail of src/contract.rs `exec::play` after the acting player is resolved:
delegate to the engine, archive the round when it is over, persist. -/
def finishPlay (store : Store) (host_addr guest_addr : String) (games : Games)
    (game : Game) (player : Player) (cell : Nat) : Except ContractError Store :=
  match game.play player cell with
  | Except.error e => Except.error (ContractError.GameError e)
  | Except.ok game2 =>
      let games2 :=
        if game2.is_over then
          { games with current := none, completed := games.completed ++ [game2] }
        else
          { games with current := some game2 }
      Except.ok (save store (host_addr, guest_addr) games2)

/-- Move handler (src/contract.rs `exec::play`): load the session, require a
running round, resolve the caller to a symbol, then apply the move. -/
def exec.play (store : Store) (sender host_addr guest_addr : String) (cell : Nat) :
    Except ContractError Store :=
  match load store (host_addr, guest_addr) with
  | none => Except.error ContractError.StdNotFound
  | some games =>
      match games.current with
      | none => Except.error (ContractError.NoGameInProgress host_addr guest_addr)
      | some game =>
          if sender = host_addr then
            finishPlay store host_addr guest_addr games game games.host cell
          else if sender = guest_addr then
            finishPlay store host_addr guest_addr games game
              (if games.host = Player.O then Player.X else Player.O) cell
          else
            Except.error (ContractError.NotInvolved host_addr guest_addr sender)

/-- Execute messages (src/msg.rs `ExecuteMsg`). -/
inductive Msg where
  | Invite (guest : String)
  | Accept (host : String)
  | Reject (host : String)
  | Play (host guest : String) (cell : Nat)
deriving DecidableEq

/-- Message dispatch (src/contract.rs `execute`); addresses arrive already
validated, the caller is the message sender. -/
def execute (store : Store) (sender : String) : Msg → Except ContractError Store
  | Msg.Invite guest => exec.invite store sender guest
  | Msg.Accept host => exec.accept store sender host
  | Msg.Reject host => exec.reject store sender host
  | Msg.Play host guest cell => exec.play store sender host guest cell

/-- Projected view of one session (src/msg.rs `GamesInfo`). -/
structure GamesInfo where
  host : String
  guest : String
  host_role : Player
  guest_role : Player
  pending_invitation : Bool
  current_game : Option Game
  completed_games : List Game
deriving DecidableEq

/-- Single-pair query (src/contract.rs `query::games`). -/
def query.games (store : Store) (host_addr guest_addr : String) :
    Except ContractError GamesInfo :=
  match load store (host_addr, guest_addr) with
  | none => Except.error ContractError.StdNotFound
  | some games =>
      Except.ok
        { host := host_addr
          guest := guest_addr
          host_role := games.host
          guest_role := if games.host = Player.O then Player.X else Player.O
          pending_invitation := games.pending_invition
          current_game := games.current
          completed_games := games.completed }

/-- Full-list query (src/contract.rs `query::all_games_list`): project every
stored record. -/
def query.all_games_list (store : Store) : List GamesInfo :=
  store.map (fun e =>
    { host := e.1.1
      guest := e.1.2
      host_role := e.2.host
      guest_role := if e.2.host = Player.O then Player.X else Player.O
      pending_invitation := e.2.pending_invition
      current_game := e.2.current
      completed_games := e.2.completed })

/-- Stores reachable from the empty store by successful contract invocations
(failed invocations leave the store untouched). -/
inductive Reachable : Store → Prop where
  | init : Reachable []
  | step (sender : String) (msg : Msg) {s s' : Store} :
      Reachable s → execute s sender msg = Except.ok s' → Reachable s'

/-- Rounds reachable from a fresh round by successful engine moves alone. -/
inductive EngineReachable : Game → Prop where
  | new : EngineReachable Game.new
  | step {g g' : Game} {p : Player} {i : Nat} :
      EngineReachable g → g.play p i = Except.ok g' → EngineReachable g'

/-- One winning triple is fully occupied by the given player. -/
def lineWon (g : Game) (p : Player) : Prop :=
  ∃ c ∈ WINNING_COMBINATIONS, ∀ i ∈ c, cellAt g i = p

instance (g : Game) (p : Player) : Decidable (lineWon g p) := by
  unfold lineWon
  infer_instance

/-- The verdict of a single winning combination, in the words of the
specification: the triple is fully occupied by one non-Empty symbol. -/
def comboWinner (g : Game) (c : List Nat) : Option Player :=
  let p := cellAt g (c.headD 0)
  if p ≠ Player.None ∧ ∀ i ∈ c, cellAt g i = p then some p else none

/-- Reading a key after a write: the written key returns the written value,
every other key is untouched. -/
lemma load_save (s : Store) (k : String × String) (v : Games) (k' : String × String) :
    load (save s k v) k' = if k' = k then some v else load s k' := by
  induction s with
  | nil =>
      rcases eq_or_ne k' k with h | h
      · subst h; simp [save, load]
      · simp [save, load, h, Ne.symm h]
  | cons e rest ih =>
      by_cases he : e.1 = k
      · rcases eq_or_ne k' k with h | h
        · subst h; simp [save, load, he]
        · simp [save, load, he, h, Ne.symm h]
      · by_cases h2 : e.1 = k'
        · have hk : k' ≠ k := fun hh => he (h2.trans hh)
          simp [save, load, he, h2, hk]
        · simp [save, load, he, h2, ih]

/-- A successful load points at an entry of the association list. -/
lemma load_mem {s : Store} {k : String × String} {g : Games}
    (h : load s k = some g) : (k, g) ∈ s := by
  induction s with
  | nil => cases h
  | cons e rest ih =>
      obtain ⟨k0, v0⟩ := e
      by_cases he : k0 = k
      · subst he
        simp [load] at h
        subst h
        exact List.mem_cons_self _ _
      · simp only [load] at h
        rw [if_neg (by simpa using he)] at h
        exact List.mem_cons_of_mem _ (ih h)

/-- Every entry of a written store is an old entry or the written pair. -/
lemma mem_save {s : Store} {k : String × String} {v : Games} {e : (String × String) × Games}
    (h : e ∈ save s k v) : e ∈ s ∨ e = (k, v) := by
  induction s with
  | nil => simp [save] at h; right; exact h
  | cons a rest ih =>
      obtain ⟨k0, v0⟩ := a
      by_cases ha : k0 = k
      · subst ha
        have hsave : save ((k0, v0) :: rest) k0 v = (k0, v) :: rest := by simp [save]
        rw [hsave] at h
        rcases List.mem_cons.mp h with h | h
        · right; exact h
        · left; exact List.mem_cons_of_mem _ h
      · have hsave : save ((k0, v0) :: rest) k v = (k0, v0) :: save rest k v := by
          simp only [save]
          rw [if_neg (by simpa using ha)]
        rw [hsave] at h
        rcases List.mem_cons.mp h with h | h
        · left; exact h ▸ List.mem_cons_self _ _
        · rcases ih h with h2 | h2
          · left; exact List.mem_cons_of_mem _ h2
          · right; exact h2

/-- A session invariant carried through every reachable store: a pending
invitation excludes a running round, and the stored host role is a real
player. -/
def SessionInv (g : Games) : Prop :=
  (g.pending_invition = true → g.current = none) ∧ g.host ≠ Player.None

/-- The invariant, over every record of a store. -/
def StoreInv (s : Store) : Prop :=
  ∀ e ∈ s, SessionInv e.2

lemma storeInv_load {s : Store} (hs : StoreInv s) {k : String × String} {g : Games}
    (h : load s k = some g) : SessionInv g :=
  hs (k, g) (load_mem h)

lemma storeInv_save {s : Store} {k : String × String} {v : Games}
    (hs : StoreInv s) (hv : SessionInv v) : StoreInv (save s k v) := by
  intro e he
  rcases mem_save he with h | h
  · exact hs e h
  · rw [h]; exact hv

lemma get_host_role_ne_none (h g : String) : get_host_role h g ≠ Player.None := by
  simp only [get_host_role]
  split <;> decide

/-- Every successful invocation preserves the session invariant. -/
lemma execute_inv {s s' : Store} {sender : String} {msg : Msg}
    (hs : StoreInv s) (hstep : execute s sender msg = Except.ok s') : StoreInv s' := by
  cases msg with
  | Invite guest =>
      cases hl : load s (sender, guest) with
      | some games =>
          cases hcur : games.current with
          | some c => simp [execute, exec.invite, hl, hcur] at hstep
          | none =>
              simp only [execute, exec.invite, hl, hcur, Option.isSome_none,
                Bool.false_eq_true, if_false, Except.ok.injEq] at hstep
              subst hstep
              exact storeInv_save hs ⟨fun _ => rfl, (storeInv_load hs hl).2⟩
      | none =>
          simp only [execute, exec.invite, hl, Except.ok.injEq] at hstep
          subst hstep
          exact storeInv_save hs ⟨fun _ => rfl, get_host_role_ne_none sender guest⟩
  | Accept host =>
      cases hl : load s (host, sender) with
      | some games =>
          cases hpb : games.pending_invition
          · simp [execute, exec.accept, hl, hpb] at hstep
          · simp only [execute, exec.accept, hl, hpb, if_true, Except.ok.injEq] at hstep
            subst hstep
            exact storeInv_save hs ⟨fun h => Bool.noConfusion h, (storeInv_load hs hl).2⟩
      | none => simp [execute, exec.accept, hl] at hstep
  | Reject host =>
      cases hl : load s (host, sender) with
      | some games =>
          cases hpb : games.pending_invition
          · simp [execute, exec.reject, hl, hpb] at hstep
          · simp only [execute, exec.reject, hl, hpb, if_true, Except.ok.injEq] at hstep
            subst hstep
            exact storeInv_save hs ⟨fun h => Bool.noConfusion h, (storeInv_load hs hl).2⟩
      | none => simp [execute, exec.reject, hl] at hstep
  | Play host guest cell =>
      cases hl : load s (host, guest) with
      | some games =>
          cases hcur : games.current with
          | some game =>
              simp only [execute, exec.play, hl, hcur] at hstep
              have hp : games.pending_invition = false := by
                cases hpb : games.pending_invition
                · rfl
                · have := (storeInv_load hs hl).1 hpb
                  rw [hcur] at this
                  cases this
              have hinv2 : ∀ player, finishPlay s host guest games game player cell =
                  Except.ok s' → StoreInv s' := by
                intro player hfin
                cases hplay : game.play player cell with
                | error e => simp [finishPlay, hplay] at hfin
                | ok game2 =>
                    simp only [finishPlay, hplay, Except.ok.injEq] at hfin
                    subst hfin
                    refine storeInv_save hs ?_
                    by_cases hov : game2.is_over <;>
                      simp [hov, SessionInv, hp, (storeInv_load hs hl).2]
              by_cases h1 : sender = host
              · rw [if_pos h1] at hstep
                exact hinv2 _ hstep
              · by_cases h2 : sender = guest
                · rw [if_neg h1, if_pos h2] at hstep
                  exact hinv2 _ hstep
                · rw [if_neg h1, if_neg h2] at hstep
                  cases hstep
          | none => simp [execute, exec.play, hl, hcur] at hstep
      | none => simp [execute, exec.play, hl] at hstep

/-- Every reachable store satisfies the session invariant. -/
lemma reachable_inv {s : Store} (h : Reachable s) : StoreInv s := by
  induction h with
  | init => intro e he; cases he
  | step sender msg _ hstep ih => exact execute_inv ih hstep

lemma winnerAux_cons (g : Game) (c : List Nat) (rest : List (List Nat)) :
    winnerAux g (c :: rest) =
      match comboWinner g c with
      | some p => some p
      | none => winnerAux g rest := by
  by_cases hcond : cellAt g (c.headD 0) ≠ Player.None ∧ ∀ i ∈ c, cellAt g i = cellAt g (c.headD 0)
  · simp only [winnerAux, comboWinner]
    rw [if_pos hcond, if_pos hcond]
  · simp only [winnerAux, comboWinner]
    rw [if_neg hcond, if_neg hcond]

lemma comboWinner_some {g : Game} {c : List Nat} {p : Player} (h : comboWinner g c = some p) :
    p ≠ Player.None ∧ cellAt g (c.headD 0) = p ∧ ∀ i ∈ c, cellAt g i = p := by
  simp only [comboWinner] at h
  by_cases hcond : cellAt g (c.headD 0) ≠ Player.None ∧ ∀ i ∈ c, cellAt g i = cellAt g (c.headD 0)
  · rw [if_pos hcond] at h
    cases h
    exact ⟨hcond.1, rfl, hcond.2⟩
  · rw [if_neg hcond] at h
    cases h

lemma winner_none_iff (g : Game) (l : List (List Nat)) :
    winnerAux g l = none ↔ ∀ c ∈ l, comboWinner g c = none := by
  induction l with
  | nil => simp [winnerAux]
  | cons c rest ih =>
      rw [winnerAux_cons]
      cases hc : comboWinner g c with
      | some p => simp [hc]
      | none => simp [hc, ih]

lemma winner_some {g : Game} {l : List (List Nat)} {p : Player} (h : winnerAux g l = some p) :
    p ≠ Player.None ∧ ∃ c ∈ l, comboWinner g c = some p := by
  induction l with
  | nil => cases h
  | cons c rest ih =>
      rw [winnerAux_cons] at h
      cases hc : comboWinner g c with
      | some q =>
          simp only [hc] at h
          cases h
          exact ⟨(comboWinner_some hc).1, c, List.mem_cons_self c rest, hc⟩
      | none =>
          simp only [hc] at h
          obtain ⟨hne, c', hc', hcc⟩ := ih h
          exact ⟨hne, c', List.mem_cons_of_mem _ hc', hcc⟩

lemma winnerAux_first (g : Game) (l₁ : List (List Nat)) :
    ∀ (c : List Nat) (l₂ : List (List Nat)) (p : Player),
      (∀ c' ∈ l₁, comboWinner g c' = none) → comboWinner g c = some p →
      winnerAux g (l₁ ++ c :: l₂) = some p := by
  induction l₁ with
  | nil =>
      intro c l₂ p _ hc
      rw [List.nil_append, winnerAux_cons, hc]
  | cons a t ih =>
      intro c l₂ p hnone hc
      rw [List.cons_append, winnerAux_cons, hnone a (List.mem_cons_self a t)]
      exact ih c l₂ p (fun c' hc' => hnone c' (List.mem_cons_of_mem a hc')) hc

/-- The successful-move shape of `Game::play`, shared by several claims: the
turn matches and the target cell is an in-range empty cell, so the move is
applied and the turn flips. -/
lemma play_ok {g : Game} {p : Player} {i : Nat} (hturn : g.turn = p)
    (hlt : i < g.board.length) (hcell : cellAt g i = Player.None) :
    g.play p i = Except.ok { board := g.board.set i p, turn := switch p } := by
  have hturn2 : ¬ g.turn ≠ p := by simp [hturn]
  have hsome : g.board[i]? = some (cellAt g i) := by
    cases hq : g.board[i]? with
    | none =>
        exfalso
        rw [List.getElem?_eq_none_iff] at hq
        omega
    | some q => simp [cellAt, hq]
  rw [hcell] at hsome
  simp [Game.play, hturn2, hsome]

/-- C4: `apply_move` fails with WrongTurn when the symbol is not the round's
turn (checked first, so an out-of-turn move on an illegal cell reports
WrongTurn); otherwise fails with IllegalCell when the index is outside 0..9 or
the cell is occupied; otherwise sets the cell, flips the turn and changes
nothing else. -/
theorem apply_move_spec (g : Game) (p : Player) (i : Nat) (hlen : g.board.length = 9) :
    (p ≠ g.turn → g.play p i = Except.error GameError.NotYourTurn) ∧
    (p = g.turn → (9 ≤ i ∨ cellAt g i ≠ Player.None) →
      g.play p i = Except.error (GameError.InvalidMove i)) ∧
    (p = g.turn → i < 9 → cellAt g i = Player.None →
      g.play p i = Except.ok { board := g.board.set i p, turn := switch p }) := by
  refine ⟨?_, ?_, ?_⟩
  · intro hne
    simp [Game.play, Ne.symm hne]
  · intro hp hbad
    have hturn2 : ¬ g.turn ≠ p := by simp [hp]
    rcases hbad with hge | hocc
    · have hnone : g.board[i]? = none := by
        rw [List.getElem?_eq_none_iff]
        omega
      simp [Game.play, hturn2, hnone]
    · cases hq : g.board[i]? with
      | none => simp [Game.play, hturn2, hq]
      | some q =>
          have hqn : q ≠ Player.None := by
            intro hqe
            exact hocc (by simp [cellAt, hq, hqe])
          simp [Game.play, hturn2, hq, hqn]
  · intro hp hlt hcell
    exact play_ok hp.symm (by omega) hcell

/-- Witness for C4 at a concrete input: the opening move on a fresh round. -/
theorem apply_move_spec_witness :
    Game.new.play Player.X 0 =
      Except.ok { board := Game.new.board.set 0 Player.X, turn := switch Player.X } :=
  (apply_move_spec Game.new Player.X 0 (by decide)).2.2 rfl (by decide) (by decide)

/-- C10: the engine's `play` never checks `is_over`: on a round that already
contains a fully-occupied winning triple, a move by the player to turn into an
empty in-range cell still succeeds; consequently a round in which both symbols
have winning triples is reachable by engine calls alone. -/
theorem engine_play_ignores_game_over :
    (∀ (g : Game) (p : Player) (i : Nat),
      (∃ q, q ≠ Player.None ∧ lineWon g q) → g.turn = p → i < g.board.length →
      cellAt g i = Player.None →
      g.play p i = Except.ok { board := g.board.set i p, turn := switch p }) ∧
    (∃ g, EngineReachable g ∧ lineWon g Player.X ∧ lineWon g Player.O) := by
  constructor
  · intro g p i _ hturn hlt hcell
    exact play_ok hturn hlt hcell
  · refine ⟨{ board := [Player.X, Player.O, Player.None, Player.X, Player.O, Player.None,
        Player.X, Player.O, Player.None], turn := Player.X }, ?_, by decide, by decide⟩
    have s0 : EngineReachable Game.new := EngineReachable.new
    have s1 : EngineReachable { board := [Player.X, Player.None, Player.None, Player.None,
        Player.None, Player.None, Player.None, Player.None, Player.None], turn := Player.O } :=
      EngineReachable.step (p := Player.X) (i := 0) s0 (by rfl)
    have s2 : EngineReachable { board := [Player.X, Player.O, Player.None, Player.None,
        Player.None, Player.None, Player.None, Player.None, Player.None], turn := Player.X } :=
      EngineReachable.step (p := Player.O) (i := 1) s1 (by rfl)
    have s3 : EngineReachable { board := [Player.X, Player.O, Player.None, Player.X,
        Player.None, Player.None, Player.None, Player.None, Player.None], turn := Player.O } :=
      EngineReachable.step (p := Player.X) (i := 3) s2 (by rfl)
    have s4 : EngineReachable { board := [Player.X, Player.O, Player.None, Player.X,
        Player.O, Player.None, Player.None, Player.None, Player.None], turn := Player.X } :=
      EngineReachable.step (p := Player.O) (i := 4) s3 (by rfl)
    have s5 : EngineReachable { board := [Player.X, Player.O, Player.None, Player.X,
        Player.O, Player.None, Player.X, Player.None, Player.None], turn := Player.O } :=
      EngineReachable.step (p := Player.X) (i := 6) s4 (by rfl)
    exact EngineReachable.step (p := Player.O) (i := 7) s5 (by rfl)

/-- Witness for C10 at a concrete input: the round of the repository's own
winner test, where X already owns the triple 0-3-6 and O still moves. -/
theorem engine_play_ignores_game_over_witness :
    Game.play { board := [Player.X, Player.O, Player.None, Player.X, Player.None, Player.O,
        Player.X, Player.None, Player.None], turn := Player.O } Player.O 2 =
      Except.ok { board := [Player.X, Player.O, Player.O, Player.X, Player.None, Player.O,
        Player.X, Player.None, Player.None], turn := Player.X } :=
  engine_play_ignores_game_over.1 _ Player.O 2 ⟨Player.X, by decide, by decide⟩ rfl
    (by decide) (by decide)

/-- The board with the top row all X and the middle row all O is reachable by
six validated engine moves from a fresh round. -/
lemma rows_reachable :
    EngineReachable { board := [Player.X, Player.X, Player.X, Player.O, Player.O, Player.O,
      Player.None, Player.None, Player.None], turn := Player.X } := by
  have s0 : EngineReachable Game.new := EngineReachable.new
  have s1 : EngineReachable { board := [Player.X, Player.None, Player.None, Player.None,
      Player.None, Player.None, Player.None, Player.None, Player.None], turn := Player.O } :=
    EngineReachable.step (p := Player.X) (i := 0) s0 (by rfl)
  have s2 : EngineReachable { board := [Player.X, Player.None, Player.None, Player.O,
      Player.None, Player.None, Player.None, Player.None, Player.None], turn := Player.X } :=
    EngineReachable.step (p := Player.O) (i := 3) s1 (by rfl)
  have s3 : EngineReachable { board := [Player.X, Player.X, Player.None, Player.O,
      Player.None, Player.None, Player.None, Player.None, Player.None], turn := Player.O } :=
    EngineReachable.step (p := Player.X) (i := 1) s2 (by rfl)
  have s4 : EngineReachable { board := [Player.X, Player.X, Player.None, Player.O,
      Player.O, Player.None, Player.None, Player.None, Player.None], turn := Player.X } :=
    EngineReachable.step (p := Player.O) (i := 4) s3 (by rfl)
  have s5 : EngineReachable { board := [Player.X, Player.X, Player.X, Player.O,
      Player.O, Player.None, Player.None, Player.None, Player.None], turn := Player.O } :=
    EngineReachable.step (p := Player.X) (i := 2) s4 (by rfl)
  exact EngineReachable.step (p := Player.O) (i := 5) s5 (by rfl)

/-- C2 counterexample: a round built only from validated moves (six successful
`apply_move` calls from a new round) in which BOTH symbols fully occupy winning
triples, so it is false that at most one symbol can ever satisfy a winning
triple; the scan then picks X only because rows are scanned first. -/
theorem winner_scan_counterexample :
    EngineReachable { board := [Player.X, Player.X, Player.X, Player.O, Player.O, Player.O,
      Player.None, Player.None, Player.None], turn := Player.X } ∧
    lineWon { board := [Player.X, Player.X, Player.X, Player.O, Player.O, Player.O,
      Player.None, Player.None, Player.None], turn := Player.X } Player.X ∧
    lineWon { board := [Player.X, Player.X, Player.X, Player.O, Player.O, Player.O,
      Player.None, Player.None, Player.None], turn := Player.X } Player.O ∧
    Game.winner { board := [Player.X, Player.X, Player.X, Player.O, Player.O, Player.O,
      Player.None, Player.None, Player.None], turn := Player.X } = some Player.X :=
  ⟨rows_reachable, by decide, by decide, by decide⟩

/-- C2 amended: `winner` scans the eight triples in their fixed order and
returns the first fully-matching non-Empty symbol, or `None` when no triple is
fully occupied by one non-Empty symbol; however rounds built only from
validated moves CAN satisfy winning triples for both symbols, so the scan
order does matter at the engine level. -/
theorem winner_first_match :
    (∀ g : Game,
      (g.winner = none ↔ ∀ c ∈ WINNING_COMBINATIONS, comboWinner g c = none) ∧
      (∀ p, g.winner = some p →
        p ≠ Player.None ∧ ∃ c ∈ WINNING_COMBINATIONS, comboWinner g c = some p) ∧
      (∀ l₁ c l₂ p, WINNING_COMBINATIONS = l₁ ++ c :: l₂ →
        (∀ c' ∈ l₁, comboWinner g c' = none) → comboWinner g c = some p →
        g.winner = some p)) ∧
    (∃ g, EngineReachable g ∧ lineWon g Player.X ∧ lineWon g Player.O) := by
  constructor
  · intro g
    refine ⟨winner_none_iff g WINNING_COMBINATIONS, fun p h => winner_some h, ?_⟩
    intro l₁ c l₂ p hsplit hnone hc
    unfold Game.winner
    rw [hsplit]
    exact winnerAux_first g l₁ c l₂ p hnone hc
  · exact ⟨_, rows_reachable, by decide, by decide⟩

/-- Witness for C2 at a concrete input: on the double-win board the scan stops
at the very first triple, the top row, and reports X. -/
theorem winner_first_match_witness :
    Game.winner { board := [Player.X, Player.X, Player.X, Player.O, Player.O, Player.O,
      Player.None, Player.None, Player.None], turn := Player.X } = some Player.X :=
  (winner_first_match.1 _).2.2 [] [0, 1, 2]
    [[3, 4, 5], [6, 7, 8], [0, 3, 6], [1, 4, 7], [2, 5, 8], [0, 4, 8], [2, 4, 6]]
    Player.X rfl (by simp) (by decide)

lemma finishPlay_ne_notInvolved (store : Store) (h g : String) (gs : Games) (game : Game)
    (p : Player) (cell : Nat) (a b c : String) :
    finishPlay store h g gs game p cell ≠ Except.error (ContractError.NotInvolved a b c) := by
  simp only [finishPlay]
  split
  · simp
  · simp

lemma complement_eq_switch {p : Player} (hp : p ≠ Player.None) :
    (if p = Player.O then Player.X else Player.O) = switch p := by
  cases p with
  | X => decide
  | O => decide
  | None => exact absurd rfl hp

/-- C3: `play` decides failures in order: NotFound when no session exists at
the key, then NoGameInProgress when no round runs, then NotInvolved exactly
when the caller is neither host nor guest (so an uninvolved caller on a
round-less session sees NoGameInProgress); the host plays the stored host
symbol and the guest its complement. -/
theorem play_failure_precedence (store : Store) (sender host guest : String) (cell : Nat) :
    (load store (host, guest) = none →
      exec.play store sender host guest cell = Except.error ContractError.StdNotFound) ∧
    (∀ g, load store (host, guest) = some g → g.current = none →
      exec.play store sender host guest cell =
        Except.error (ContractError.NoGameInProgress host guest)) ∧
    (∀ g game, load store (host, guest) = some g → g.current = some game →
      (exec.play store sender host guest cell =
          Except.error (ContractError.NotInvolved host guest sender) ↔
        sender ≠ host ∧ sender ≠ guest)) ∧
    (∀ g game, load store (host, guest) = some g → g.current = some game → sender = host →
      exec.play store sender host guest cell =
        finishPlay store host guest g game g.host cell) ∧
    (∀ g game, load store (host, guest) = some g → g.current = some game → sender ≠ host →
      sender = guest → g.host ≠ Player.None →
      exec.play store sender host guest cell =
        finishPlay store host guest g game (switch g.host) cell) := by
  refine ⟨?_, ?_, ?_, ?_, ?_⟩
  · intro h
    simp [exec.play, h]
  · intro g hl hcur
    simp [exec.play, hl, hcur]
  · intro g game hl hcur
    constructor
    · intro heq
      by_cases h1 : sender = host
      · simp only [exec.play, hl, hcur] at heq
        rw [if_pos h1] at heq
        exact absurd heq (finishPlay_ne_notInvolved _ _ _ _ _ _ _ _ _ _)
      · by_cases h2 : sender = guest
        · simp only [exec.play, hl, hcur] at heq
          rw [if_neg h1, if_pos h2] at heq
          exact absurd heq (finishPlay_ne_notInvolved _ _ _ _ _ _ _ _ _ _)
        · exact ⟨h1, h2⟩
    · intro hng
      simp [exec.play, hl, hcur, hng.1, hng.2]
  · intro g game hl hcur h1
    simp only [exec.play, hl, hcur]
    rw [if_pos h1]
  · intro g game hl hcur h1 h2 hh
    simp only [exec.play, hl, hcur]
    rw [if_neg h1, if_pos h2, complement_eq_switch hh]

/-- Witness for C3 at a concrete input: an outside caller on a session with a
running round gets NotInvolved. -/
theorem play_failure_precedence_witness :
    exec.play [(("host", "guest"),
        { pending_invition := false, host := Player.X, current := some Game.new,
          completed := [] })] "carol" "host" "guest" 0 =
      Except.error (ContractError.NotInvolved "host" "guest" "carol") :=
  ((play_failure_precedence [(("host", "guest"),
      { pending_invition := false, host := Player.X, current := some Game.new,
        completed := [] })] "carol" "host" "guest" 0).2.2.1
    { pending_invition := false, host := Player.X, current := some Game.new,
      completed := [] }
    Game.new rfl rfl).mpr ⟨by decide, by decide⟩

/-- C7: `invite` fails with GameInProgress when a round runs, re-arms the
pending flag on an existing round-less session leaving host symbol and history
untouched, and otherwise creates a fresh session with a derived host symbol,
no round and empty history. -/
theorem invite_spec (store : Store) (sender guest : String) :
    (∀ g, load store (sender, guest) = some g → g.current.isSome →
      exec.invite store sender guest =
        Except.error (ContractError.GameInProgress sender guest)) ∧
    (∀ g, load store (sender, guest) = some g → g.current = none →
      exec.invite store sender guest = Except.ok (save store (sender, guest)
        { pending_invition := true, host := g.host, current := none,
          completed := g.completed })) ∧
    (load store (sender, guest) = none →
      exec.invite store sender guest = Except.ok (save store (sender, guest)
        { pending_invition := true, host := get_host_role sender guest, current := none,
          completed := [] })) := by
  refine ⟨?_, ?_, ?_⟩
  · intro g hl hcur
    simp [exec.invite, hl, hcur]
  · intro g hl hcur
    simp [exec.invite, hl, hcur]
  · intro h
    simp [exec.invite, h]

/-- Witness for C7 at a concrete input: the very first invitation. -/
theorem invite_spec_witness :
    exec.invite [] "alice" "bob" = Except.ok (save [] ("alice", "bob")
      { pending_invition := true, host := get_host_role "alice" "bob", current := none,
        completed := [] }) :=
  (invite_spec [] "alice" "bob").2.2 rfl

/-- C8: `accept` and `reject` look up the session at (host, caller), fail when
it is absent, fail with NoPendingInvitation when no invitation is pending; on
success accept clears the flag and starts a fresh round (all-empty board, X
first) while reject only clears the flag. -/
theorem accept_reject_spec (store : Store) (sender host : String) :
    (load store (host, sender) = none →
      exec.accept store sender host = Except.error ContractError.StdNotFound ∧
      exec.reject store sender host = Except.error ContractError.StdNotFound) ∧
    (∀ g, load store (host, sender) = some g → g.pending_invition = false →
      exec.accept store sender host =
        Except.error (ContractError.NoPendingInvitation host sender) ∧
      exec.reject store sender host =
        Except.error (ContractError.NoPendingInvitation host sender)) ∧
    (∀ g, load store (host, sender) = some g → g.pending_invition = true →
      exec.accept store sender host = Except.ok (save store (host, sender)
        { pending_invition := false, host := g.host, current := some Game.new,
          completed := g.completed }) ∧
      exec.reject store sender host = Except.ok (save store (host, sender)
        { pending_invition := false, host := g.host, current := g.current,
          completed := g.completed })) ∧
    Game.new = { board := List.replicate 9 Player.None, turn := Player.X } := by
  refine ⟨?_, ?_, ?_, rfl⟩
  · intro h
    exact ⟨by simp [exec.accept, h], by simp [exec.reject, h]⟩
  · intro g hl hp
    exact ⟨by simp [exec.accept, hl, hp], by simp [exec.reject, hl, hp]⟩
  · intro g hl hp
    exact ⟨by simp [exec.accept, hl, hp], by simp [exec.reject, hl, hp]⟩

/-- Witness for C8 at a concrete input: accepting a pending invitation starts
a fresh round. -/
theorem accept_reject_spec_witness :
    exec.accept [(("host", "guest"),
        { pending_invition := true, host := Player.X, current := none, completed := [] })]
      "guest" "host" =
      Except.ok (save [(("host", "guest"),
        { pending_invition := true, host := Player.X, current := none, completed := [] })]
        ("host", "guest")
        { pending_invition := false, host := Player.X, current := some Game.new,
          completed := [] }) :=
  ((accept_reject_spec [(("host", "guest"),
      { pending_invition := true, host := Player.X, current := none, completed := [] })]
    "guest" "host").2.2.1
    { pending_invition := true, host := Player.X, current := none, completed := [] }
    rfl rfl).1

lemma save_preserves (s : Store) (k₀ : String × String) (v : Games)
    (hv : ∀ g₀, load s k₀ = some g₀ →
      ∃ t, v.completed = g₀.completed ++ t ∧ v.host = g₀.host) :
    ∀ k g, load s k = some g → ∃ g' t, load (save s k₀ v) k = some g' ∧
      g'.completed = g.completed ++ t ∧ g'.host = g.host := by
  intro k g hl
  by_cases hk : k = k₀
  · subst hk
    obtain ⟨t, ht, hh⟩ := hv g hl
    refine ⟨v, t, ?_, ht, hh⟩
    rw [load_save, if_pos rfl]
  · refine ⟨g, [], ?_, by simp, rfl⟩
    rw [load_save, if_neg hk]
    exact hl

/-- Every successful invocation leaves every stored record with its history
extended on the right only, and its host symbol untouched. -/
lemma execute_preserves_record {s s' : Store} {sender : String} {msg : Msg}
    (hstep : execute s sender msg = Except.ok s') :
    ∀ k g, load s k = some g → ∃ g' t, load s' k = some g' ∧
      g'.completed = g.completed ++ t ∧ g'.host = g.host := by
  cases msg with
  | Invite guest =>
      cases hl : load s (sender, guest) with
      | some games =>
          cases hcur : games.current with
          | some c => simp [execute, exec.invite, hl, hcur] at hstep
          | none =>
              simp only [execute, exec.invite, hl, hcur, Option.isSome_none,
                Bool.false_eq_true, if_false, Except.ok.injEq] at hstep
              subst hstep
              apply save_preserves
              intro g₀ hl₀
              rw [hl] at hl₀
              cases hl₀
              exact ⟨[], by simp, rfl⟩
      | none =>
          simp only [execute, exec.invite, hl, Except.ok.injEq] at hstep
          subst hstep
          apply save_preserves
          intro g₀ hl₀
          rw [hl] at hl₀
          cases hl₀
  | Accept host =>
      cases hl : load s (host, sender) with
      | some games =>
          cases hpb : games.pending_invition
          · simp [execute, exec.accept, hl, hpb] at hstep
          · simp only [execute, exec.accept, hl, hpb, if_true, Except.ok.injEq] at hstep
            subst hstep
            apply save_preserves
            intro g₀ hl₀
            rw [hl] at hl₀
            cases hl₀
            exact ⟨[], by simp, rfl⟩
      | none => simp [execute, exec.accept, hl] at hstep
  | Reject host =>
      cases hl : load s (host, sender) with
      | some games =>
          cases hpb : games.pending_invition
          · simp [execute, exec.reject, hl, hpb] at hstep
          · simp only [execute, exec.reject, hl, hpb, if_true, Except.ok.injEq] at hstep
            subst hstep
            apply save_preserves
            intro g₀ hl₀
            rw [hl] at hl₀
            cases hl₀
            exact ⟨[], by simp, rfl⟩
      | none => simp [execute, exec.reject, hl] at hstep
  | Play host guest cell =>
      cases hl : load s (host, guest) with
      | some games =>
          cases hcur : games.current with
          | some game =>
              simp only [execute, exec.play, hl, hcur] at hstep
              have key : ∀ player, finishPlay s host guest games game player cell =
                  Except.ok s' →
                  ∀ k g, load s k = some g → ∃ g' t, load s' k = some g' ∧
                    g'.completed = g.completed ++ t ∧ g'.host = g.host := by
                intro player hfin
                cases hplay : game.play player cell with
                | error e => simp [finishPlay, hplay] at hfin
                | ok game2 =>
                    simp only [finishPlay, hplay, Except.ok.injEq] at hfin
                    subst hfin
                    apply save_preserves
                    intro g₀ hl₀
                    rw [hl] at hl₀
                    cases hl₀
                    by_cases hov : game2.is_over
                    · exact ⟨[game2], by rw [if_pos hov], by rw [if_pos hov]⟩
                    · exact ⟨[], by rw [if_neg hov]; simp, by rw [if_neg hov]⟩
              by_cases h1 : sender = host
              · rw [if_pos h1] at hstep
                exact key _ hstep
              · by_cases h2 : sender = guest
                · rw [if_neg h1, if_pos h2] at hstep
                  exact key _ hstep
                · rw [if_neg h1, if_neg h2] at hstep
                  cases hstep
          | none => simp [execute, exec.play, hl, hcur] at hstep
      | none => simp [execute, exec.play, hl] at hstep

/-- C5: when a play succeeds and the resulting round is terminal it is appended
by value to the completed history and the current round is cleared (a
non-terminal result stays current and leaves history untouched); and across
every operation the completed history of every session only grows by
appending on the right. -/
theorem completed_rounds_append_only :
    (∀ (store : Store) (sender host guest : String) (cell : Nat) (store' : Store),
      exec.play store sender host guest cell = Except.ok store' →
      ∀ g, load store (host, guest) = some g →
      ∃ game game2 player, g.current = some game ∧
        game.play player cell = Except.ok game2 ∧
        (game2.is_over = true → load store' (host, guest) = some
          { pending_invition := g.pending_invition, host := g.host, current := none,
            completed := g.completed ++ [game2] }) ∧
        (game2.is_over = false → load store' (host, guest) = some
          { pending_invition := g.pending_invition, host := g.host,
            current := some game2, completed := g.completed })) ∧
    (∀ (store : Store) (sender : String) (msg : Msg) (store' : Store),
      execute store sender msg = Except.ok store' →
      ∀ k g, load store k = some g →
        ∃ g' t, load store' k = some g' ∧ g'.completed = g.completed ++ t) := by
  constructor
  · intro store sender host guest cell store' hstep g hl
    cases hcur : g.current with
    | none => simp [exec.play, hl, hcur] at hstep
    | some game =>
        simp only [exec.play, hl, hcur] at hstep
        have key : ∀ player, finishPlay store host guest g game player cell =
            Except.ok store' →
            ∃ game2, game.play player cell = Except.ok game2 ∧
              (game2.is_over = true → load store' (host, guest) = some
                { pending_invition := g.pending_invition, host := g.host, current := none,
                  completed := g.completed ++ [game2] }) ∧
              (game2.is_over = false → load store' (host, guest) = some
                { pending_invition := g.pending_invition, host := g.host,
                  current := some game2, completed := g.completed }) := by
          intro player hfin
          cases hplay : game.play player cell with
          | error e => simp [finishPlay, hplay] at hfin
          | ok game2 =>
              simp only [finishPlay, hplay, Except.ok.injEq] at hfin
              subst hfin
              refine ⟨game2, rfl, ?_, ?_⟩
              · intro hov
                rw [load_save, if_pos rfl, if_pos hov]
              · intro hov
                rw [load_save, if_pos rfl, if_neg (by simp [hov])]
        by_cases h1 : sender = host
        · rw [if_pos h1] at hstep
          obtain ⟨game2, hplay, ha, hb⟩ := key _ hstep
          exact ⟨game, game2, g.host, rfl, hplay, ha, hb⟩
        · by_cases h2 : sender = guest
          · rw [if_neg h1, if_pos h2] at hstep
            obtain ⟨game2, hplay, ha, hb⟩ := key _ hstep
            exact ⟨game, game2, _, rfl, hplay, ha, hb⟩
          · rw [if_neg h1, if_neg h2] at hstep
            cases hstep
  · intro store sender msg store' hstep k g hl
    obtain ⟨g', t, h1, h2, _⟩ := execute_preserves_record hstep k g hl
    exact ⟨g', t, h1, h2⟩

/-- Witness for C5 at a concrete input: the host completes the triple 0-3-6,
the round is archived and the current round cleared. -/
theorem completed_rounds_append_only_witness :
    ∃ game game2 player,
      (some { board := [Player.X, Player.O, Player.None, Player.X, Player.None, Player.O,
          Player.None, Player.None, Player.None], turn := Player.X } : Option Game) =
        some game ∧
      Game.play game player 6 = Except.ok game2 ∧
      (game2.is_over = true →
        load [(("host", "guest"),
          { pending_invition := false, host := Player.X, current := none,
            completed := [{ board := [Player.X, Player.O, Player.None, Player.X, Player.None,
              Player.O, Player.X, Player.None, Player.None], turn := Player.O }] })]
          ("host", "guest") = some
          { pending_invition := false, host := Player.X, current := none,
            completed := [] ++ [game2] }) ∧
      (game2.is_over = false →
        load [(("host", "guest"),
          { pending_invition := false, host := Player.X, current := none,
            completed := [{ board := [Player.X, Player.O, Player.None, Player.X, Player.None,
              Player.O, Player.X, Player.None, Player.None], turn := Player.O }] })]
          ("host", "guest") = some
          { pending_invition := false, host := Player.X, current := some game2,
            completed := [] }) :=
  completed_rounds_append_only.1
    [(("host", "guest"),
      { pending_invition := false, host := Player.X,
        current := some { board := [Player.X, Player.O, Player.None, Player.X, Player.None,
          Player.O, Player.None, Player.None, Player.None], turn := Player.X },
        completed := [] })]
    "host" "host" "guest" 6
    [(("host", "guest"),
      { pending_invition := false, host := Player.X, current := none,
        completed := [{ board := [Player.X, Player.O, Player.None, Player.X, Player.None,
          Player.O, Player.X, Player.None, Player.None], turn := Player.O }] })]
    (by rfl)
    { pending_invition := false, host := Player.X,
      current := some { board := [Player.X, Player.O, Player.None, Player.X, Player.None,
        Player.O, Player.None, Player.None, Player.None], turn := Player.X },
      completed := [] }
    rfl

/-- C6: in every store reachable by any sequence of invite, accept, reject and
play invocations, no session ever has a pending invitation and a running round
at the same time. -/
theorem pending_round_mutual_exclusion (s : Store) (hs : Reachable s)
    (k : String × String) (g : Games) (hl : load s k = some g)
    (hp : g.pending_invition = true) : g.current = none :=
  (storeInv_load (reachable_inv hs) hl).1 hp

/-- Witness for C6 at a concrete input: the store produced by a first
invitation holds a pending session with no round. -/
theorem pending_round_mutual_exclusion_witness :
    ({ pending_invition := true, host := Player.O, current := none, completed := [] } :
      Games).current = none :=
  pending_round_mutual_exclusion
    [(("alice", "bob"),
      { pending_invition := true, host := Player.O, current := none, completed := [] })]
    (Reachable.step "alice" (Msg.Invite "bob") Reachable.init (by rfl))
    ("alice", "bob")
    { pending_invition := true, host := Player.O, current := none, completed := [] }
    rfl rfl

/-- C9: in every reachable store both query projections report the guest symbol
as the complement of the stored host symbol, and the host symbol of a session
is never changed by any subsequent invocation. -/
theorem guest_symbol_complement (s : Store) (hs : Reachable s) :
    (∀ host guest info, query.games s host guest = Except.ok info →
      info.host_role ≠ Player.None ∧ info.guest_role = switch info.host_role ∧
      ∀ g, load s (host, guest) = some g → info.host_role = g.host) ∧
    (∀ info ∈ query.all_games_list s, info.host_role ≠ Player.None ∧
      info.guest_role = switch info.host_role) ∧
    (∀ sender msg s', execute s sender msg = Except.ok s' →
      ∀ k g g', load s k = some g → load s' k = some g' → g'.host = g.host) := by
  refine ⟨?_, ?_, ?_⟩
  · intro host guest info hq
    cases hl : load s (host, guest) with
    | none => simp [query.games, hl] at hq
    | some g =>
        simp only [query.games, hl, Except.ok.injEq] at hq
        subst hq
        have hh : g.host ≠ Player.None := (storeInv_load (reachable_inv hs) hl).2
        refine ⟨hh, complement_eq_switch hh, ?_⟩
        intro g2 hl2
        cases hl2
        rfl
  · intro info hmem
    simp only [query.all_games_list, List.mem_map] at hmem
    obtain ⟨e, he, rfl⟩ := hmem
    have hh : e.2.host ≠ Player.None := (reachable_inv hs e he).2
    exact ⟨hh, complement_eq_switch hh⟩
  · intro sender msg s' hstep k g g' hl hl'
    obtain ⟨g2, t, hload2, _, hhost⟩ := execute_preserves_record hstep k g hl
    rw [hl'] at hload2
    cases hload2
    exact hhost

/-- Witness for C9 at a concrete input: the single-pair projection of the
session created by a first invitation reports the complement of the stored O. -/
theorem guest_symbol_complement_witness :
    ({ host := "alice", guest := "bob", host_role := Player.O, guest_role := Player.X,
        pending_invitation := true, current_game := none, completed_games := [] } :
      GamesInfo).guest_role = switch Player.O :=
  ((guest_symbol_complement
      [(("alice", "bob"),
        { pending_invition := true, host := Player.O, current := none, completed := [] })]
      (Reachable.step "alice" (Msg.Invite "bob") Reachable.init (by rfl))).1
    "alice" "bob"
    { host := "alice", guest := "bob", host_role := Player.O, guest_role := Player.X,
      pending_invitation := true, current_game := none, completed_games := [] }
    (by rfl)).2.1

/-- The repository's own tests pin the derived roles for two concrete pairs;
the embedding reproduces both, anchoring the hash model to the source. -/
lemma get_host_role_matches_repo_tests :
    get_host_role "sender" "guest" = Player.O ∧ get_host_role "host" "guest" = Player.X := by
  constructor <;> decide

/-- C1 counterexample: for the pair ("a", "b") the hash is odd, so the claimed
rule yields Second (O), but the code inspects the low bit of the first ASCII
digit of the decimal rendering (digit 7, odd) and yields First (X). -/
theorem host_role_counterexample :
    defaultHash ("a" ++ "b") % 2 = 1 ∧
    hostRoleClaimed "a" "b" = Player.O ∧
    get_host_role "a" "b" = Player.X ∧
    get_host_role "a" "b" ≠ hostRoleClaimed "a" "b" := by
  refine ⟨by decide, by decide, by decide, by decide⟩

lemma decDigitsGo_head (fuel : Nat) : ∀ n, n < fuel →
    ∃ a t, decDigitsGo fuel n = a :: t ∧ a < 10 := by
  induction fuel with
  | zero => omega
  | succ fuel ih =>
      intro n h
      by_cases h10 : n < 10
      · exact ⟨n, [], by simp [decDigitsGo, h10], h10⟩
      · have h1 : n / 10 < n := Nat.div_lt_self (by omega) (by omega)
        obtain ⟨a, t, hat, ha⟩ := ih (n / 10) (by omega)
        exact ⟨a, t ++ [n % 10], by simp [decDigitsGo, h10, hat], ha⟩

lemma decDigits_head (n : Nat) : ∃ a t, decDigits n = a :: t ∧ a < 10 :=
  decDigitsGo_head (n + 1) n (Nat.lt_succ_self n)

/-- C1 amended: for every ordered pair the code concatenates host then guest,
hashes with the stable non-cryptographic default hasher, renders the 64-bit
hash in decimal and takes the low bit of the first ASCII digit character (the
parity of the leading decimal digit): bit 0 maps to Second (O), bit 1 maps to
First (X). -/
theorem host_role_leading_digit_parity (host_addr guest_addr : String) :
    get_host_role host_addr guest_addr = hostRoleAmended host_addr guest_addr := by
  simp only [get_host_role, hostRoleAmended, decBytes]
  generalize defaultHash (host_addr ++ guest_addr) = n
  obtain ⟨a, t, hat, ha⟩ := decDigits_head n
  have hand : (48 + a) &&& 1 = a % 2 := by
    rw [Nat.and_one_is_mod]
    omega
  simp only [hat, List.map_cons, List.headD_cons, hand]

end TicTacToe
